import Mathlib

/-!
# Verification of the search core of `rss_api_service.py`

This file shallowly embeds the pure search pipeline of the repository
(the functions `normalize`, `parse_keywords`, `matches`, `get_field_text`,
`get_entry_date`, and the `search` endpoint of `src/rss_api_service.py`)
and proves the specification claims about it.

Modelling decisions:
* Python strings are Lean `String`s; the character-level operations that the
  proofs need (`str.replace`, `str.split`, `str.strip`, substring `in`) are
  defined on the underlying `List Char`, matching the code-point semantics of
  CPython.
* `unicodedata.normalize("NFKC", t).casefold()` is an external Unicode table
  lookup; it is modelled by an abstract function parameter `norm`, carried
  through every definition exactly where the code applies it.
* `urlparse(link).netloc` and `datetime.fromtimestamp(e).strftime(...)` are
  likewise abstract parameters `netloc` and `fmtDate` (pure formatting, not
  relevant to any claim).
* `requests.get` + `feedparser.parse` (the network fetch) is a parameter
  `fetchParse : String → List Entry`; `fetch_feed` returning `{"entries": []}`
  on any error is represented by `fetchParse` returning `[]`.
* Epoch timestamps (Python floats) are modelled as `Int`; only their order
  matters to the code.
* `ThreadPoolExecutor.map` returns results in input order, so the concurrent
  fetch phase is `urls.map fetchParse`.
* `generated_at` (wall-clock time) is outside the embedding; the report keeps
  the fields the claims speak about.
-/

namespace RSS

/-- A parsed feed entry, mirroring the `feedparser` entry dictionary as the
code reads it: the keys `title`, `summary`, `description`, `link` default to
`""` via `entry.get(k, "")`, and the two date keys are optional, already
converted by `time.mktime` (absent-or-unconvertible = `none`). -/
structure Entry where
  title : String := ""
  summary : String := ""
  description : String := ""
  link : String := ""
  published_parsed : Option Int := none
  updated_parsed : Option Int := none
deriving Repr, DecidableEq

/-- A stored feed row (`Feed` pydantic model): `{id, url}`. -/
structure Feed where
  id : Int
  url : String
deriving Repr, DecidableEq

/-- The `SearchRequest` pydantic model. -/
structure SearchRequest where
  keywords : String
  field : String := "both"
  mode : String := "any"
  max_results : Int := 0
deriving Repr, DecidableEq

/-- The `SearchResult` pydantic model. -/
structure SearchResult where
  title : String
  link : String
  summary : String
  source : String
  date : Int
  date_str : String
deriving Repr, DecidableEq

/-- The two caller-input validation failures raised by `search`
(`HTTPException(400, "No feeds configured")` and
`HTTPException(400, "No keywords provided")`). -/
inductive SearchError where
  | noFeeds
  | noKeywords
deriving Repr, DecidableEq

/-- The search report dictionary returned by `search` (minus the wall-clock
`generated_at` field, which is outside the pure embedding). -/
structure SearchReport where
  results : List SearchResult
  total_feeds : Nat
  failed_feeds : List String
  search_params : SearchRequest
deriving Repr, DecidableEq

/-- Python `normalize(text)`: `unicodedata.normalize("NFKC", text).casefold() if text
else ""`.  The NFKC+casefold table lookup is the abstract parameter `norm`. -/
def normalize (norm : String → String) (text : String) : String :=
  if text = "" then "" else norm text

/-- Python `c` for `c` in `raw.replace("\n", ",")`: single-character
replacement is a character map. -/
def pyReplaceNlComma (s : List Char) : List Char :=
  s.map (fun c => if c = '\n' then ',' else c)

/-- Python `s.split(sep)` for a single-character separator: always returns at
least one (possibly empty) piece; `"".split(",") = [""]`. -/
def pySplitChar (sep : Char) : List Char → List (List Char)
  | [] => [[]]
  | c :: cs =>
    if c = sep then [] :: pySplitChar sep cs
    else
      match pySplitChar sep cs with
      | [] => [[c]]
      | t :: ts => (c :: t) :: ts

/-- Python `s.strip()`: drop whitespace from both ends. -/
def pyStrip (s : List Char) : List Char :=
  ((s.dropWhile Char.isWhitespace).reverse.dropWhile Char.isWhitespace).reverse

/-- Python `parse_keywords(raw)`:
`[normalize(k.strip()) for k in raw.replace("\n", ",").split(",") if k.strip()]`. -/
def parse_keywords (norm : String → String) (raw : String) : List String :=
  ((pySplitChar ',' (pyReplaceNlComma raw.data)).filter
      (fun k => pyStrip k ≠ [])).map
    (fun k => normalize norm (String.mk (pyStrip k)))

/-- Python `matches(text, keywords, mode)`: normalize the text, test each keyword for
substring containment (`kw in nt`, code-point infix), then `any`/`all` by
mode. -/
def «matches» (norm : String → String) (text : String) (keywords : List String)
    (mode : String) : Bool :=
  let nt := normalize norm text
  let hits := keywords.map (fun kw => decide (kw.data <:+: nt.data))
  if mode = "any" then hits.any id else hits.all id

/-- Python `get_field_text(entry, field)`: title for `"title"`, summary (with
`or`-fallback to description) for `"description"`, otherwise
`f"{title} {summary}"`. -/
def get_field_text (entry : Entry) (field : String) : String :=
  let title := entry.title
  let summary := if entry.summary ≠ "" then entry.summary else entry.description
  if field = "title" then title
  else if field = "description" then summary
  else title ++ " " ++ summary

/-- Python `get_entry_date(entry)`: first of `published_parsed`, `updated_parsed`
that is present and convertible, else `0.0`. -/
def get_entry_date (entry : Entry) : Int :=
  match entry.published_parsed with
  | some t => t
  | none =>
    match entry.updated_parsed with
    | some t => t
    | none => 0

/-- The `SearchResult` built in the body of the scan loop: summary truncated
to 300 code points, `source = urlparse(link).netloc`, date string formatted
only for a nonzero epoch. -/
def mkSearchResult (netloc : String → String) (fmtDate : Int → String)
    (entry : Entry) : SearchResult :=
  let link := entry.link
  let date_epoch := get_entry_date entry
  { title := entry.title
    link := link
    summary := entry.summary.take 300
    source := netloc link
    date := date_epoch
    date_str := if date_epoch ≠ 0 then fmtDate date_epoch else "" }

/-- The mutable loop state of `search`: accumulated `results`, the
`seen_links` set (modelled as the list of links in reverse insertion order),
and the `failed_feeds` list. -/
structure ScanState where
  results : List SearchResult
  seen_links : List String
  failed_feeds : List String
deriving Repr, DecidableEq

/-- One iteration of the inner entry loop of `search`: skip when the selected
text is empty or does not match, skip when the link is empty or already seen,
otherwise record the link and append the built result. -/
def processEntry (norm netloc : String → String) (fmtDate : Int → String)
    (keywords : List String) (field mode : String)
    (st : ScanState) (entry : Entry) : ScanState :=
  let text := get_field_text entry field
  if text = "" ∨ ¬ «matches» norm text keywords mode then st
  else
    let link := entry.link
    if link = "" ∨ link ∈ st.seen_links then st
    else
      { st with
        results := st.results ++ [mkSearchResult netloc fmtDate entry]
        seen_links := link :: st.seen_links }

/-- One iteration of the outer feed loop of `search`: a feed whose parsed
entry list is empty is recorded in `failed_feeds` and skipped; otherwise its
entries are scanned in order. -/
def processFeed (norm netloc : String → String) (fmtDate : Int → String)
    (keywords : List String) (field mode : String)
    (st : ScanState) (url : String) (entries : List Entry) : ScanState :=
  if entries = [] then { st with failed_feeds := st.failed_feeds ++ [url] }
  else entries.foldl (processEntry norm netloc fmtDate keywords field mode) st

/-- The whole feed-scan phase of `search`, over `(url, parsed entries)` pairs
in feed-list order. -/
def scanFeeds (norm netloc : String → String) (fmtDate : Int → String)
    (keywords : List String) (field mode : String)
    (st : ScanState) : List (String × List Entry) → ScanState
  | [] => st
  | (url, entries) :: rest =>
      scanFeeds norm netloc fmtDate keywords field mode
        (processFeed norm netloc fmtDate keywords field mode st url entries) rest

/-- The comparator of `results.sort(key=lambda x: x.date, reverse=True)`:
a stable descending sort by epoch date. -/
def dateDescending (a b : SearchResult) : Bool :=
  b.date ≤ a.date

/-- The scan phase of one `search` call: fetch+parse every stored url in
feed-list order (`ThreadPoolExecutor.map` keeps input order) and run the
merge/filter/dedup loop from the empty state. -/
def searchScan (norm netloc : String → String) (fmtDate : Int → String)
    (fetchParse : String → List Entry) (feeds : List Feed)
    (req : SearchRequest) : ScanState :=
  let urls := feeds.map Feed.url
  scanFeeds norm netloc fmtDate (parse_keywords norm req.keywords)
    req.field req.mode ⟨[], [], []⟩ (urls.zip (urls.map fetchParse))

/-- The `search` endpoint: validate (`NoFeedsError`, `NoKeywordsError`), scan
all feeds, stable-sort the results by date descending, truncate when
`max_results > 0`, and return the report. -/
def search (norm netloc : String → String) (fmtDate : Int → String)
    (fetchParse : String → List Entry) (feeds : List Feed)
    (req : SearchRequest) : Except SearchError SearchReport :=
  if feeds = [] then .error .noFeeds
  else
    let keywords := parse_keywords norm req.keywords
    if keywords = [] then .error .noKeywords
    else
      let st := searchScan norm netloc fmtDate fetchParse feeds req
      let sorted := st.results.mergeSort dateDescending
      let final := if 0 < req.max_results then sorted.take req.max_results.toNat
                   else sorted
      .ok { results := final
            total_feeds := feeds.length
            failed_feeds := st.failed_feeds
            search_params := req }

/-! ## Specification-side definitions

These re-state, in the words of the specification, what the scan loop is
claimed to compute; the lemmas below connect them to the loop. -/

/-- The summary the specification-level `FeedEntry` carries: the code reads it
as `entry.get("summary", "") or entry.get("description", "")`. -/
def effectiveSummary (entry : Entry) : String :=
  if entry.summary ≠ "" then entry.summary else entry.description

/-- Modelled from the spec: splitting a raw keyword string directly on commas
AND newlines (the spec words of `parse_keywords`, to be compared with the
replace-then-split of the code). -/
def splitCommaOrNewline : List Char → List (List Char)
  | [] => [[]]
  | c :: cs =>
    if c = ',' ∨ c = '\n' then [] :: splitCommaOrNewline cs
    else
      match splitCommaOrNewline cs with
      | [] => [[c]]
      | t :: ts => (c :: t) :: ts

/-- An entry qualifies for the result set when its selected field text is
non-empty, the text matches the keywords, and its link is non-empty. -/
def qualifies (norm : String → String) (keywords : List String)
    (field mode : String) (entry : Entry) : Bool :=
  decide (get_field_text entry field ≠ "")
    && «matches» norm (get_field_text entry field) keywords mode
    && decide (entry.link ≠ "")

/-- First-occurrence-wins deduplication by link against a seen set: keeps the
first entry carrying each link, drops every later occurrence. -/
def dedupFirst : List String → List Entry → List Entry
  | _, [] => []
  | seen, e :: es =>
    if e.link ∈ seen then dedupFirst seen es
    else e :: dedupFirst (e.link :: seen) es

/-- All qualifying entries of a pair list, scanning feeds in feed-list order
and entries in feed order. -/
def feedCandidates (norm : String → String) (keywords : List String)
    (field mode : String) (pairs : List (String × List Entry)) : List Entry :=
  ((pairs.map Prod.snd).flatten).filter (fun e => qualifies norm keywords field mode e)

/-- The urls of the pairs whose parsed entry list is empty, in feed-list
order. -/
def failedOf (pairs : List (String × List Entry)) : List String :=
  (pairs.filter (fun p => decide (p.2 = []))).map Prod.fst

/-! ## Scan-phase characterization -/

theorem processEntry_eq (norm netloc : String → String) (fmtDate : Int → String)
    (keywords : List String) (field mode : String) (st : ScanState) (e : Entry) :
    processEntry norm netloc fmtDate keywords field mode st e =
      if qualifies norm keywords field mode e then
        (if e.link ∈ st.seen_links then st
         else { st with
                results := st.results ++ [mkSearchResult netloc fmtDate e]
                seen_links := e.link :: st.seen_links })
      else st := by
  unfold processEntry qualifies
  by_cases h1 : get_field_text e field = ""
  · simp [h1]
  · by_cases h2 : «matches» norm (get_field_text e field) keywords mode
    · by_cases h3 : e.link = ""
      · simp [h1, h2, h3]
      · by_cases h4 : e.link ∈ st.seen_links <;> simp [h1, h2, h3, h4]
    · simp [h1, h2]

theorem foldl_processEntry (norm netloc : String → String) (fmtDate : Int → String)
    (keywords : List String) (field mode : String) (entries : List Entry)
    (st : ScanState) :
    entries.foldl (processEntry norm netloc fmtDate keywords field mode) st =
      { results := st.results ++
          (dedupFirst st.seen_links
            (entries.filter (fun e => qualifies norm keywords field mode e))).map
            (mkSearchResult netloc fmtDate)
        seen_links :=
          ((dedupFirst st.seen_links
            (entries.filter (fun e => qualifies norm keywords field mode e))).map
            Entry.link).reverse ++ st.seen_links
        failed_feeds := st.failed_feeds } := by
  induction entries generalizing st with
  | nil => simp [dedupFirst]
  | cons e es ih =>
    rw [List.foldl_cons, processEntry_eq]
    by_cases hq : qualifies norm keywords field mode e
    · rw [if_pos hq]
      by_cases hs : e.link ∈ st.seen_links
      · rw [if_pos hs, ih]
        simp [List.filter_cons, hq, dedupFirst, hs]
      · rw [if_neg hs, ih]
        simp [List.filter_cons, hq, dedupFirst, hs, List.append_assoc]
    · rw [if_neg hq, ih]
      simp [List.filter_cons, hq]

theorem dedupFirst_append (xs ys : List Entry) (seen : List String) :
    dedupFirst seen (xs ++ ys) =
      dedupFirst seen xs ++
        dedupFirst (((dedupFirst seen xs).map Entry.link).reverse ++ seen) ys := by
  induction xs generalizing seen with
  | nil => simp [dedupFirst]
  | cons x xs ih =>
    by_cases hs : x.link ∈ seen
    · simp only [List.cons_append, dedupFirst, if_pos hs]
      exact ih seen
    · simp only [List.cons_append, dedupFirst, if_neg hs, List.append_eq]
      rw [ih (x.link :: seen)]
      simp [List.append_assoc]

theorem scanFeeds_spec (norm netloc : String → String) (fmtDate : Int → String)
    (keywords : List String) (field mode : String)
    (pairs : List (String × List Entry)) (st : ScanState) :
    scanFeeds norm netloc fmtDate keywords field mode st pairs =
      { results := st.results ++
          (dedupFirst st.seen_links
            (feedCandidates norm keywords field mode pairs)).map
            (mkSearchResult netloc fmtDate)
        seen_links :=
          ((dedupFirst st.seen_links
            (feedCandidates norm keywords field mode pairs)).map
            Entry.link).reverse ++ st.seen_links
        failed_feeds := st.failed_feeds ++ failedOf pairs } := by
  induction pairs generalizing st with
  | nil => simp [scanFeeds, feedCandidates, dedupFirst, failedOf]
  | cons p rest ih =>
    obtain ⟨url, es⟩ := p
    rw [scanFeeds]
    unfold processFeed
    by_cases he : es = []
    · rw [if_pos he, ih]
      subst he
      simp [feedCandidates, failedOf, List.filter_cons]
    · rw [if_neg he, foldl_processEntry, ih]
      have hcand : feedCandidates norm keywords field mode ((url, es) :: rest)
          = es.filter (fun e => qualifies norm keywords field mode e)
            ++ feedCandidates norm keywords field mode rest := by
        simp [feedCandidates]
      have hfail : failedOf ((url, es) :: rest) = failedOf rest := by
        simp [failedOf, List.filter_cons, he]
      rw [hcand, hfail, dedupFirst_append]
      simp [ScanState.mk.injEq, List.append_assoc]

/-- The feed-list-order pairs of url and fetched entries that one `search`
call scans. -/
def searchPairs (fetchParse : String → List Entry) (feeds : List Feed) :
    List (String × List Entry) :=
  (feeds.map Feed.url).zip ((feeds.map Feed.url).map fetchParse)

theorem searchScan_eq (norm netloc : String → String) (fmtDate : Int → String)
    (fetchParse : String → List Entry) (feeds : List Feed) (req : SearchRequest) :
    searchScan norm netloc fmtDate fetchParse feeds req =
      { results :=
          (dedupFirst []
            (feedCandidates norm (parse_keywords norm req.keywords) req.field req.mode
              (searchPairs fetchParse feeds))).map (mkSearchResult netloc fmtDate)
        seen_links :=
          ((dedupFirst []
            (feedCandidates norm (parse_keywords norm req.keywords) req.field req.mode
              (searchPairs fetchParse feeds))).map Entry.link).reverse
        failed_feeds := failedOf (searchPairs fetchParse feeds) } := by
  unfold searchScan searchPairs
  rw [scanFeeds_spec]
  simp

theorem failedOf_searchPairs (fetchParse : String → List Entry) (feeds : List Feed) :
    failedOf (searchPairs fetchParse feeds) =
      (feeds.map Feed.url).filter (fun u => decide (fetchParse u = [])) := by
  unfold searchPairs
  generalize feeds.map Feed.url = urls
  induction urls with
  | nil => simp [failedOf]
  | cons u us ih =>
    by_cases h : fetchParse u = [] <;>
      simp [failedOf, List.filter_cons, h] at ih ⊢ <;> exact ih

theorem mem_of_mem_dedupFirst {seen : List String} {l : List Entry} {x : Entry}
    (h : x ∈ dedupFirst seen l) : x ∈ l := by
  induction l generalizing seen with
  | nil => simp [dedupFirst] at h
  | cons e es ih =>
    unfold dedupFirst at h
    by_cases hs : e.link ∈ seen
    · rw [if_pos hs] at h
      exact List.mem_cons_of_mem e (ih h)
    · rw [if_neg hs] at h
      rcases List.mem_cons.mp h with h | h
      · exact h ▸ List.mem_cons_self e es
      · exact List.mem_cons_of_mem e (ih h)

theorem dedupFirst_link_not_mem_seen {seen : List String} {l : List Entry}
    {x : Entry} (h : x ∈ dedupFirst seen l) : x.link ∉ seen := by
  induction l generalizing seen with
  | nil => simp [dedupFirst] at h
  | cons e es ih =>
    unfold dedupFirst at h
    by_cases hs : e.link ∈ seen
    · rw [if_pos hs] at h
      exact ih h
    · rw [if_neg hs] at h
      rcases List.mem_cons.mp h with h | h
      · exact h ▸ hs
      · intro hx
        exact ih h (List.mem_cons_of_mem _ hx)

theorem dedupFirst_links_nodup (seen : List String) (l : List Entry) :
    ((dedupFirst seen l).map Entry.link).Nodup := by
  induction l generalizing seen with
  | nil => simp [dedupFirst]
  | cons e es ih =>
    unfold dedupFirst
    by_cases hs : e.link ∈ seen
    · rw [if_pos hs]
      exact ih seen
    · rw [if_neg hs]
      rw [List.map_cons, List.nodup_cons]
      refine ⟨?_, ih (e.link :: seen)⟩
      intro hmem
      obtain ⟨y, hy, hylink⟩ := List.mem_map.mp hmem
      exact dedupFirst_link_not_mem_seen hy (hylink ▸ List.mem_cons_self _ _)

/-- Unfolding of `search` on the happy path: validations pass, so the report
is the sorted, possibly truncated scan. -/
theorem search_eq_ok (norm netloc : String → String) (fmtDate : Int → String)
    (fetchParse : String → List Entry) (feeds : List Feed) (req : SearchRequest)
    (hfeeds : feeds ≠ []) (hkw : parse_keywords norm req.keywords ≠ []) :
    search norm netloc fmtDate fetchParse feeds req =
      .ok { results :=
              (if 0 < req.max_results then
                ((searchScan norm netloc fmtDate fetchParse feeds req).results.mergeSort
                  dateDescending).take req.max_results.toNat
              else
                (searchScan norm netloc fmtDate fetchParse feeds req).results.mergeSort
                  dateDescending)
            total_feeds := feeds.length
            failed_feeds := (searchScan norm netloc fmtDate fetchParse feeds req).failed_feeds
            search_params := req } := by
  unfold search
  rw [if_neg hfeeds, if_neg hkw]

theorem pyReplaceNlComma_cons (c : Char) (cs : List Char) :
    pyReplaceNlComma (c :: cs) = (if c = '\n' then ',' else c) :: pyReplaceNlComma cs := rfl

/-- Replacing newlines by commas and splitting on commas is the same as
splitting on commas and newlines at once. -/
theorem pySplitChar_pyReplaceNlComma (s : List Char) :
    pySplitChar ',' (pyReplaceNlComma s) = splitCommaOrNewline s := by
  induction s with
  | nil => rfl
  | cons c cs ih =>
    rw [pyReplaceNlComma_cons]
    by_cases h : c = '\n'
    · rw [if_pos h]
      unfold pySplitChar splitCommaOrNewline
      rw [if_pos rfl, if_pos (Or.inr h), ih]
    · rw [if_neg h]
      by_cases h2 : c = ','
      · unfold pySplitChar splitCommaOrNewline
        rw [if_pos h2, if_pos (Or.inl h2), ih]
      · unfold pySplitChar splitCommaOrNewline
        rw [if_neg h2, if_neg (by tauto : ¬(c = ',' ∨ c = '\n')), ih]

theorem dateDescending_trans (a b c : SearchResult) :
    dateDescending a b → dateDescending b c → dateDescending a c := by
  unfold dateDescending
  simp only [decide_eq_true_eq]
  omega

theorem dateDescending_total (a b : SearchResult) :
    dateDescending a b || dateDescending b a := by
  unfold dateDescending
  simp only [Bool.or_eq_true, decide_eq_true_eq]
  omega

/-- Stability of the date sort, phrased through filters: the results carrying
any fixed date keep exactly their pre-sort relative order. -/
theorem mergeSort_filter_date (l : List SearchResult) (d : Int) :
    (l.mergeSort dateDescending).filter (fun x => decide (x.date = d)) =
      l.filter (fun x => decide (x.date = d)) := by
  have hpw : (l.filter (fun x => decide (x.date = d))).Pairwise
      (fun a b => dateDescending a b) := by
    apply List.pairwise_of_forall_mem_list
    intro a ha b hb
    have ha2 := (List.mem_filter.mp ha).2
    have hb2 := (List.mem_filter.mp hb).2
    simp only [decide_eq_true_eq] at ha2 hb2
    simp [dateDescending, ha2, hb2]
  have hsub : List.Sublist (l.filter (fun x => decide (x.date = d)))
      (l.mergeSort dateDescending) :=
    List.sublist_mergeSort dateDescending_trans dateDescending_total hpw
      (List.filter_sublist l)
  have hsub2 : List.Sublist (l.filter (fun x => decide (x.date = d)))
      ((l.mergeSort dateDescending).filter (fun x => decide (x.date = d))) := by
    have := hsub.filter (fun x => decide (x.date = d))
    rwa [List.filter_eq_self.mpr (fun a ha => (List.mem_filter.mp ha).2)] at this
  have hperm : List.Perm
      ((l.mergeSort dateDescending).filter (fun x => decide (x.date = d)))
      (l.filter (fun x => decide (x.date = d))) :=
    (List.mergeSort_perm l dateDescending).filter _
  exact (hsub2.eq_of_length hperm.length_eq.symm).symm

theorem list_all_map {α β : Type} (f : α → β) (l : List α) (p : β → Bool) :
    (l.map f).all p = l.all (p ∘ f) := by
  induction l <;> simp [*]

/-- Shorthand for the scan-results equation of `searchScan_eq`. -/
theorem searchScan_results (norm netloc : String → String) (fmtDate : Int → String)
    (fetchParse : String → List Entry) (feeds : List Feed) (req : SearchRequest) :
    (searchScan norm netloc fmtDate fetchParse feeds req).results
      = (dedupFirst []
          (feedCandidates norm (parse_keywords norm req.keywords) req.field req.mode
            (searchPairs fetchParse feeds))).map (mkSearchResult netloc fmtDate) := by
  rw [searchScan_eq]

/-- Inversion: a successful `search` implies the validations passed and fixes
the report fields. -/
theorem search_ok_elim (norm netloc : String → String) (fmtDate : Int → String)
    (fetchParse : String → List Entry) (feeds : List Feed) (req : SearchRequest)
    (r : SearchReport)
    (h : search norm netloc fmtDate fetchParse feeds req = .ok r) :
    feeds ≠ [] ∧ parse_keywords norm req.keywords ≠ [] ∧
    r.results = (if 0 < req.max_results then
        ((searchScan norm netloc fmtDate fetchParse feeds req).results.mergeSort
          dateDescending).take req.max_results.toNat
      else
        (searchScan norm netloc fmtDate fetchParse feeds req).results.mergeSort
          dateDescending) ∧
    r.failed_feeds = (searchScan norm netloc fmtDate fetchParse feeds req).failed_feeds := by
  by_cases h1 : feeds = []
  · simp [search, h1] at h
  by_cases h2 : parse_keywords norm req.keywords = []
  · simp [search, h1, h2] at h
  rw [search_eq_ok norm netloc fmtDate fetchParse feeds req h1 h2] at h
  have h3 := Except.ok.inj h
  subst h3
  exact ⟨h1, h2, rfl, rfl⟩

theorem qualifies_link_ne {norm : String → String} {keywords : List String}
    {field mode : String} {e : Entry}
    (hq : qualifies norm keywords field mode e = true) : e.link ≠ "" := by
  simp only [qualifies, Bool.and_eq_true, decide_eq_true_eq] at hq
  exact hq.2

/-! ## The claims -/

/-- C4: for every entry and field selector, `get_field_text` returns exactly
the title when field is `"title"`, only the (specification-level) summary when
field is `"description"`, and title and summary joined by a single space when
field is `"both"`; in particular a concrete entry whose keyword occurs only in
its summary is not matched when field is `"title"` but is matched under
`"both"`. -/
theorem claim_field_text (entry : Entry) :
    get_field_text entry "title" = entry.title ∧
    get_field_text entry "description" = effectiveSummary entry ∧
    get_field_text entry "both" = entry.title ++ " " ++ effectiveSummary entry ∧
    «matches» id (get_field_text { title := "alpha", summary := "the foo story" } "title")
        ["foo"] "any" = false ∧
    «matches» id (get_field_text { title := "alpha", summary := "the foo story" } "both")
        ["foo"] "any" = true := by
  refine ⟨rfl, ?_, ?_, by decide, by decide⟩
  · simp [get_field_text, effectiveSummary]
  · simp [get_field_text, effectiveSummary]

/-- C5: `matches` normalizes the text with the same NFKC+casefold transform
(the abstract `norm`) and then, for a non-empty keyword list, returns true in
mode `"any"` iff at least one keyword is a substring of the normalized text,
and in mode `"all"` iff every keyword is a substring of it. -/
theorem claim_matches (norm : String → String) (text : String)
    (keywords : List String) (_hkw : keywords ≠ []) :
    («matches» norm text keywords "any" = true ↔
      ∃ kw ∈ keywords, kw.data <:+: (normalize norm text).data) ∧
    («matches» norm text keywords "all" = true ↔
      ∀ kw ∈ keywords, kw.data <:+: (normalize norm text).data) := by
  unfold «matches»
  constructor
  · simp
  · simp

/-- C5 witness: concrete instance with a one-keyword list. -/
theorem claim_matches_witness :
    «matches» id "abc def" ["def"] "any" = true ↔
      ∃ kw ∈ ["def"], kw.data <:+: (normalize id "abc def").data :=
  (claim_matches id "abc def" ["def"] (by decide)).1

/-- C8: `parse_keywords` returns the tokens obtained by splitting the raw
string on commas and newlines, trimming whitespace, dropping tokens empty
after trimming, and applying the NFKC+casefold transform (`norm`) to each
remaining token, in left-to-right order. -/
theorem claim_parse_keywords (norm : String → String) (raw : String) :
    parse_keywords norm raw =
      ((splitCommaOrNewline raw.data).filter (fun k => pyStrip k ≠ [])).map
        (fun k => norm (String.mk (pyStrip k))) := by
  unfold parse_keywords
  rw [pySplitChar_pyReplaceNlComma]
  apply List.map_congr_left
  intro k hk
  have hne : pyStrip k ≠ [] := by
    have := (List.mem_filter.mp hk).2
    simpa using this
  unfold normalize
  rw [if_neg]
  intro hcontra
  exact hne (by simpa [String.ext_iff] using hcontra)

/-- C10: at the public interface any mode other than `"any"` makes `matches`
require ALL keywords, and any field other than `"title"` and `"description"`
makes `get_field_text` return the title-space-summary combination; moreover no
validation rejects such out-of-enum values: `search` still succeeds on them. -/
theorem claim_out_of_enum (norm netloc : String → String) (fmtDate : Int → String)
    (fetchParse : String → List Entry) (feeds : List Feed) (req : SearchRequest)
    (text : String) (keywords : List String) (entry : Entry)
    (hmode : req.mode ≠ "any") (hf1 : req.field ≠ "title") (hf2 : req.field ≠ "description")
    (hfeeds : feeds ≠ []) (hkw : parse_keywords norm req.keywords ≠ []) :
    («matches» norm text keywords req.mode
      = keywords.all (fun kw => decide (kw.data <:+: (normalize norm text).data))) ∧
    get_field_text entry req.field = entry.title ++ " " ++ effectiveSummary entry ∧
    (search norm netloc fmtDate fetchParse feeds req).isOk = true := by
  refine ⟨?_, ?_, ?_⟩
  · unfold «matches»
    rw [if_neg hmode, list_all_map]
    rfl
  · unfold get_field_text effectiveSummary
    rw [if_neg hf1, if_neg hf2]
  · rw [search_eq_ok norm netloc fmtDate fetchParse feeds req hfeeds hkw]
    rfl

/-- C1: with a non-empty feed list and a keyword string whose parsed keyword
list is non-empty, `search` never fails and returns a report; with an empty
feed list it fails with `noFeeds`, and with an empty parsed keyword list it
fails with `noKeywords` — and on both failure paths the outcome is the same
for EVERY fetch function, i.e. the checks precede any fetch dispatch and no
state is touched. -/
theorem claim_validation (norm netloc : String → String) (fmtDate : Int → String)
    (feeds : List Feed) (req : SearchRequest) :
    (feeds = [] → ∀ fetchParse,
      search norm netloc fmtDate fetchParse feeds req = .error .noFeeds) ∧
    (feeds ≠ [] → parse_keywords norm req.keywords = [] → ∀ fetchParse,
      search norm netloc fmtDate fetchParse feeds req = .error .noKeywords) ∧
    (feeds ≠ [] → parse_keywords norm req.keywords ≠ [] → ∀ fetchParse,
      ∃ r, search norm netloc fmtDate fetchParse feeds req = .ok r) := by
  refine ⟨?_, ?_, ?_⟩
  · intro h fetchParse
    simp [search, h]
  · intro h1 h2 fetchParse
    simp [search, h1, h2]
  · intro h1 h2 fetchParse
    exact ⟨_, search_eq_ok norm netloc fmtDate fetchParse feeds req h1 h2⟩

/-- C1 witness: a concrete one-feed, one-keyword call returns a report. -/
theorem claim_validation_witness :
    ∃ r, search id id (fun _ => "") (fun _ => []) [⟨1, "u"⟩]
      ⟨"k", "both", "any", 0⟩ = .ok r :=
  (claim_validation id id (fun _ => "") [⟨1, "u"⟩] ⟨"k", "both", "any", 0⟩).2.2
    (by decide) (by decide) (fun _ => [])

/-- C9: search is deterministic in its results: two calls agreeing on the
query and on the fetched content of every listed feed url return identical
reports (results in the same order, and the same failed feeds) — the pipeline
depends only on the per-feed parsed entry lists taken in feed-list order. -/
theorem claim_deterministic (norm netloc : String → String) (fmtDate : Int → String)
    (feeds : List Feed) (req : SearchRequest)
    (fetch1 fetch2 : String → List Entry)
    (h : ∀ u ∈ feeds.map Feed.url, fetch1 u = fetch2 u) :
    search norm netloc fmtDate fetch1 feeds req
      = search norm netloc fmtDate fetch2 feeds req := by
  have hpairs : searchPairs fetch1 feeds = searchPairs fetch2 feeds := by
    unfold searchPairs
    rw [List.map_congr_left h]
  have hscan : searchScan norm netloc fmtDate fetch1 feeds req
      = searchScan norm netloc fmtDate fetch2 feeds req := by
    rw [searchScan_eq, searchScan_eq, hpairs]
  unfold search
  rw [hscan]

/-- C9 witness: two fetch functions that agree on the listed url (and differ
elsewhere) give the same report. -/
theorem claim_deterministic_witness :
    search id id (fun _ => "") (fun _ => []) [⟨1, "u"⟩] ⟨"k", "both", "any", 0⟩
      = search id id (fun _ => "")
          (fun u => if u = "x" then [{ link := "l" }] else []) [⟨1, "u"⟩]
          ⟨"k", "both", "any", 0⟩ :=
  claim_deterministic id id (fun _ => "") [⟨1, "u"⟩] ⟨"k", "both", "any", 0⟩
    (fun _ => []) (fun u => if u = "x" then [{ link := "l" }] else [])
    (by decide)

/-- C6: on the happy path the report records a feed url in `failed_feeds`
exactly when its fetched-and-parsed entry list is empty (fetch failure and a
genuinely empty feed land there indistinguishably), in feed-list order; every
result comes from an entry of a feed whose entry list is non-empty; and no
per-feed failure escapes: the call still returns a report. -/
theorem claim_failed_feeds (norm netloc : String → String) (fmtDate : Int → String)
    (fetchParse : String → List Entry) (feeds : List Feed) (req : SearchRequest)
    (hfeeds : feeds ≠ []) (hkw : parse_keywords norm req.keywords ≠ []) :
    ∃ r, search norm netloc fmtDate fetchParse feeds req = .ok r ∧
      r.failed_feeds
        = (feeds.map Feed.url).filter (fun u => decide (fetchParse u = [])) ∧
      ∀ x ∈ r.results, ∃ u ∈ feeds.map Feed.url, ∃ e ∈ fetchParse u,
        fetchParse u ≠ [] ∧ x = mkSearchResult netloc fmtDate e := by
  refine ⟨_, search_eq_ok norm netloc fmtDate fetchParse feeds req hfeeds hkw, ?_, ?_⟩
  · show (searchScan norm netloc fmtDate fetchParse feeds req).failed_feeds = _
    rw [searchScan_eq]
    exact failedOf_searchPairs fetchParse feeds
  · intro x hx
    have hx2 : x ∈ (searchScan norm netloc fmtDate fetchParse feeds req).results.mergeSort
        dateDescending := by
      by_cases hc : 0 < req.max_results
      · rw [if_pos hc] at hx
        exact List.mem_of_mem_take hx
      · rw [if_neg hc] at hx
        exact hx
    have hx3 : x ∈ (searchScan norm netloc fmtDate fetchParse feeds req).results :=
      List.mem_mergeSort.mp hx2
    rw [searchScan_eq] at hx3
    obtain ⟨e, he, hmk⟩ := List.mem_map.mp hx3
    have he2 := mem_of_mem_dedupFirst he
    have he3 := (List.mem_filter.mp he2).1
    have hsnd : ((searchPairs fetchParse feeds).map Prod.snd)
        = (feeds.map Feed.url).map fetchParse := by
      unfold searchPairs
      exact List.map_snd_zip _ _ (by simp)
    rw [hsnd] at he3
    obtain ⟨es, hes, hees⟩ := List.mem_flatten.mp he3
    obtain ⟨u, hu, hue⟩ := List.mem_map.mp hes
    subst hue
    refine ⟨u, hu, e, hees, ?_, hmk.symm⟩
    intro hnil
    rw [hnil] at hees
    exact List.not_mem_nil e hees

/-- C6 witness: a single feed whose fetch yields no entries is reported
failed, and contributes no results. -/
theorem claim_failed_feeds_witness :
    ∃ r, search id id (fun _ => "") (fun _ => []) [⟨1, "u"⟩]
        ⟨"k", "both", "any", 0⟩ = .ok r ∧
      r.failed_feeds
        = (([⟨1, "u"⟩] : List Feed).map Feed.url).filter
            (fun u => decide ((fun _ => ([] : List Entry)) u = [])) ∧
      ∀ x ∈ r.results, ∃ u ∈ ([⟨1, "u"⟩] : List Feed).map Feed.url,
        ∃ e ∈ (fun _ => ([] : List Entry)) u,
        (fun _ => ([] : List Entry)) u ≠ [] ∧ x = mkSearchResult id (fun _ => "") e :=
  claim_failed_feeds id id (fun _ => "") (fun _ => []) [⟨1, "u"⟩]
    ⟨"k", "both", "any", 0⟩ (by decide) (by decide)

/-- C10 witness: concrete out-of-enum mode and field values. -/
theorem claim_out_of_enum_witness :
    («matches» id "x y" ["x", "z"] "bogus"
      = (["x", "z"] : List String).all
          (fun kw => decide (kw.data <:+: (normalize id "x y").data))) ∧
    get_field_text { title := "t", summary := "s" } "weird"
      = "t" ++ " " ++ effectiveSummary { title := "t", summary := "s" } ∧
    (search id id (fun _ => "") (fun _ => [])
      [⟨1, "u"⟩] ⟨"k", "weird", "bogus", 0⟩).isOk = true :=
  claim_out_of_enum id id (fun _ => "") (fun _ => []) [⟨1, "u"⟩]
    ⟨"k", "weird", "bogus", 0⟩ "x y" ["x", "z"] { title := "t", summary := "s" }
    (by decide) (by decide) (by decide) (by decide) (by decide)

/-- C2: in every report returned by `search` the result links are pairwise
distinct and non-empty, and the scan phase keeps, for each link, exactly the
first qualifying entry encountered in feed-list order and entry order — all
later occurrences are skipped (the `dedupFirst` equation). -/
theorem claim_dedup (norm netloc : String → String) (fmtDate : Int → String)
    (fetchParse : String → List Entry) (feeds : List Feed) (req : SearchRequest)
    (r : SearchReport)
    (h : search norm netloc fmtDate fetchParse feeds req = .ok r) :
    (r.results.map (fun x => x.link)).Nodup ∧
    (∀ x ∈ r.results, x.link ≠ "") ∧
    (searchScan norm netloc fmtDate fetchParse feeds req).results
      = (dedupFirst []
          (feedCandidates norm (parse_keywords norm req.keywords) req.field req.mode
            (searchPairs fetchParse feeds))).map (mkSearchResult netloc fmtDate) := by
  obtain ⟨h1, h2, hres, -⟩ :=
    search_ok_elim norm netloc fmtDate fetchParse feeds req r h
  have hscan := searchScan_results norm netloc fmtDate fetchParse feeds req
  have hlinks : ((searchScan norm netloc fmtDate fetchParse feeds req).results.map
      (fun x => x.link)).Nodup := by
    rw [hscan, List.map_map]
    exact dedupFirst_links_nodup [] _
  have hsortlinks : (((searchScan norm netloc fmtDate fetchParse feeds req).results.mergeSort
      dateDescending).map (fun x => x.link)).Nodup := by
    have hperm := (List.mergeSort_perm
      (searchScan norm netloc fmtDate fetchParse feeds req).results dateDescending).map
      (fun x => x.link)
    exact hperm.symm.nodup hlinks
  refine ⟨?_, ?_, hscan⟩
  · rw [hres]
    by_cases hc : 0 < req.max_results
    · rw [if_pos hc, List.map_take]
      exact hsortlinks.sublist (List.take_sublist _ _)
    · rw [if_neg hc]
      exact hsortlinks
  · intro x hx
    rw [hres] at hx
    have hx2 : x ∈ (searchScan norm netloc fmtDate fetchParse feeds req).results.mergeSort
        dateDescending := by
      by_cases hc : 0 < req.max_results
      · rw [if_pos hc] at hx
        exact List.mem_of_mem_take hx
      · rw [if_neg hc] at hx
        exact hx
    have hx3 := List.mem_mergeSort.mp hx2
    rw [hscan] at hx3
    obtain ⟨e, he, hmk⟩ := List.mem_map.mp hx3
    have hq := (List.mem_filter.mp (mem_of_mem_dedupFirst he)).2
    have := qualifies_link_ne hq
    rw [← hmk]
    exact this

/-- C2 witness: a one-feed, one-matching-entry search. -/
theorem claim_dedup_witness :
    ∃ r, search id id (fun _ => "") (fun _ => [{ title := "k", link := "l" }])
        [⟨1, "u"⟩] ⟨"k", "both", "any", 0⟩ = .ok r ∧
      ((r.results.map (fun x => x.link)).Nodup ∧
       (∀ x ∈ r.results, x.link ≠ "") ∧
       (searchScan id id (fun _ => "") (fun _ => [{ title := "k", link := "l" }])
          [⟨1, "u"⟩] ⟨"k", "both", "any", 0⟩).results
        = (dedupFirst []
            (feedCandidates id (parse_keywords id "k") "both" "any"
              (searchPairs (fun _ => [{ title := "k", link := "l" }]) [⟨1, "u"⟩]))).map
            (mkSearchResult id (fun _ => ""))) := by
  have hs : search id id (fun _ => "") (fun _ => [{ title := "k", link := "l" }])
      [⟨1, "u"⟩] ⟨"k", "both", "any", 0⟩
      = .ok { results := List.mergeSort
                [mkSearchResult id (fun _ => "") { title := "k", link := "l" }]
                dateDescending
              total_feeds := 1
              failed_feeds := []
              search_params := ⟨"k", "both", "any", 0⟩ } := rfl
  exact ⟨_, hs, claim_dedup id id (fun _ => "") _ [⟨1, "u"⟩] ⟨"k", "both", "any", 0⟩ _ hs⟩

/-- C3: in every report returned by `search` the results are sorted by epoch
date in descending order (index form), and the sort is stable: within every
date the final results keep the relative order the scan phase produced
(sublist of the scan filter; equality when no truncation applies). -/
theorem claim_sorted (norm netloc : String → String) (fmtDate : Int → String)
    (fetchParse : String → List Entry) (feeds : List Feed) (req : SearchRequest)
    (r : SearchReport)
    (h : search norm netloc fmtDate fetchParse feeds req = .ok r) :
    (∀ i : Nat, ∀ hi : i + 1 < r.results.length,
      (r.results[i + 1]).date ≤ (r.results[i]).date) ∧
    (∀ d : Int, List.Sublist (r.results.filter (fun x => decide (x.date = d)))
      ((searchScan norm netloc fmtDate fetchParse feeds req).results.filter
        (fun x => decide (x.date = d)))) ∧
    (¬ 0 < req.max_results →
      ∀ d : Int, r.results.filter (fun x => decide (x.date = d))
        = (searchScan norm netloc fmtDate fetchParse feeds req).results.filter
            (fun x => decide (x.date = d))) := by
  obtain ⟨h1, h2, hres, -⟩ :=
    search_ok_elim norm netloc fmtDate fetchParse feeds req r h
  have hpw : ((searchScan norm netloc fmtDate fetchParse feeds req).results.mergeSort
      dateDescending).Pairwise (fun a b => dateDescending a b = true) :=
    List.sorted_mergeSort dateDescending_trans dateDescending_total _
  have hpw2 : r.results.Pairwise (fun a b => dateDescending a b = true) := by
    rw [hres]
    by_cases hc : 0 < req.max_results
    · rw [if_pos hc]
      exact hpw.sublist (List.take_sublist _ _)
    · rw [if_neg hc]
      exact hpw
  refine ⟨?_, ?_, ?_⟩
  · intro i hi
    have := (List.pairwise_iff_getElem.mp hpw2) i (i + 1) (by omega) hi (by omega)
    simpa [dateDescending] using this
  · intro d
    rw [hres]
    by_cases hc : 0 < req.max_results
    · rw [if_pos hc]
      have hsub := (List.take_sublist req.max_results.toNat
        ((searchScan norm netloc fmtDate fetchParse feeds req).results.mergeSort
          dateDescending)).filter (fun x => decide (x.date = d))
      rwa [mergeSort_filter_date] at hsub
    · rw [if_neg hc, mergeSort_filter_date]
  · intro hc d
    rw [hres, if_neg hc, mergeSort_filter_date]

/-- C3 witness: a one-feed, one-matching-entry search. -/
theorem claim_sorted_witness :
    ∃ r, search id id (fun _ => "") (fun _ => [{ title := "k", link := "l2" }])
        [⟨2, "v"⟩] ⟨"k", "both", "any", 0⟩ = .ok r ∧
      ∀ i : Nat, ∀ hi : i + 1 < r.results.length,
        (r.results[i + 1]).date ≤ (r.results[i]).date := by
  have hs : search id id (fun _ => "") (fun _ => [{ title := "k", link := "l2" }])
      [⟨2, "v"⟩] ⟨"k", "both", "any", 0⟩
      = .ok { results := List.mergeSort
                [mkSearchResult id (fun _ => "") { title := "k", link := "l2" }]
                dateDescending
              total_feeds := 1
              failed_feeds := []
              search_params := ⟨"k", "both", "any", 0⟩ } := rfl
  exact ⟨_, hs, (claim_sorted id id (fun _ => "") _ [⟨2, "v"⟩]
    ⟨"k", "both", "any", 0⟩ _ hs).1⟩

/-- C7: in every report returned by `search`, a positive `max_results` makes
the results exactly the first `max_results` elements of the date-sorted
sequence (hence bounded in length), `max_results = 0` means no truncation,
and with `max_results = 1` and at least one qualifying result the single
returned result has the maximal date. -/
theorem claim_truncation (norm netloc : String → String) (fmtDate : Int → String)
    (fetchParse : String → List Entry) (feeds : List Feed) (req : SearchRequest)
    (r : SearchReport)
    (h : search norm netloc fmtDate fetchParse feeds req = .ok r) :
    (0 < req.max_results →
      r.results = ((searchScan norm netloc fmtDate fetchParse feeds req).results.mergeSort
        dateDescending).take req.max_results.toNat ∧
      (r.results.length : Int) ≤ req.max_results) ∧
    (req.max_results = 0 →
      r.results = (searchScan norm netloc fmtDate fetchParse feeds req).results.mergeSort
        dateDescending) ∧
    (req.max_results = 1 →
      (searchScan norm netloc fmtDate fetchParse feeds req).results ≠ [] →
      ∃ x, r.results = [x] ∧
        ∀ y ∈ (searchScan norm netloc fmtDate fetchParse feeds req).results,
          y.date ≤ x.date) := by
  obtain ⟨h1, h2, hres, -⟩ :=
    search_ok_elim norm netloc fmtDate fetchParse feeds req r h
  refine ⟨?_, ?_, ?_⟩
  · intro hc
    rw [hres, if_pos hc]
    refine ⟨rfl, ?_⟩
    have hlen := List.length_take_le req.max_results.toNat
      ((searchScan norm netloc fmtDate fetchParse feeds req).results.mergeSort dateDescending)
    omega
  · intro hc
    rw [hres, hc, if_neg (by decide)]
  · intro hc hne
    rw [hres, hc, if_pos (by decide : (0 : Int) < 1)]
    have hLne : (searchScan norm netloc fmtDate fetchParse feeds req).results.mergeSort
        dateDescending ≠ [] := by
      intro hnil
      apply hne
      have hlen : ((searchScan norm netloc fmtDate fetchParse feeds req).results.mergeSort
          dateDescending).length
          = (searchScan norm netloc fmtDate fetchParse feeds req).results.length :=
        List.length_mergeSort _
      rw [hnil] at hlen
      exact List.length_eq_zero.mp hlen.symm
    obtain ⟨z, rest, hzrest⟩ := List.exists_cons_of_ne_nil hLne
    rw [hzrest]
    refine ⟨z, by simp, ?_⟩
    intro y hy
    have hy2 : y ∈ z :: rest := by
      rw [← hzrest]
      exact List.mem_mergeSort.mpr hy
    have hpw := List.sorted_mergeSort dateDescending_trans dateDescending_total
      ((searchScan norm netloc fmtDate fetchParse feeds req).results)
    rw [hzrest] at hpw
    rcases List.mem_cons.mp hy2 with hy3 | hy3
    · rw [hy3]
    · have := (List.pairwise_cons.mp hpw).1 y hy3
      simpa [dateDescending] using this

/-- C7 witness: a one-feed, one-matching-entry search with `max_results = 1`. -/
theorem claim_truncation_witness :
    ∃ r, search id id (fun _ => "") (fun _ => [{ title := "k", link := "l3" }])
        [⟨3, "w"⟩] ⟨"k", "both", "any", 1⟩ = .ok r ∧
      ∃ x, r.results = [x] ∧
        ∀ y ∈ (searchScan id id (fun _ => "")
            (fun _ => [{ title := "k", link := "l3" }]) [⟨3, "w"⟩]
            ⟨"k", "both", "any", 1⟩).results,
          y.date ≤ x.date := by
  have hs : search id id (fun _ => "") (fun _ => [{ title := "k", link := "l3" }])
      [⟨3, "w"⟩] ⟨"k", "both", "any", 1⟩
      = .ok { results := (List.mergeSort
                [mkSearchResult id (fun _ => "") { title := "k", link := "l3" }]
                dateDescending).take 1
              total_feeds := 1
              failed_feeds := []
              search_params := ⟨"k", "both", "any", 1⟩ } := rfl
  refine ⟨_, hs, (claim_truncation id id (fun _ => "") _ [⟨3, "w"⟩]
    ⟨"k", "both", "any", 1⟩ _ hs).2.2 rfl ?_⟩
  have : (searchScan id id (fun _ => "") (fun _ => [{ title := "k", link := "l3" }])
      [⟨3, "w"⟩] ⟨"k", "both", "any", 1⟩).results
      = [mkSearchResult id (fun _ => "") { title := "k", link := "l3" }] := rfl
  rw [this]
  exact List.cons_ne_nil _ _

end RSS
